import Mathlib

/-!
Verification development for the product-ops reporting pipeline.

The pipeline has three batch stages:
* a tracker fetch script that resolves current/next sprint cycles per team and
  computes burndown series,
* a spreadsheet fetch script that parses initiative rows and classifies
  engineering-readiness text,
* a report generator that aggregates both snapshots into per-pod statistics,
  a Pareto ranking of next-sprint issues, and an HTML page.

The definitions below are a shallow embedding of those scripts.  Numbers are
modelled as rationals, timestamps as integers counting seconds, and the
one-decimal rounding applied by the scripts as exact round-half-to-even on
rationals.  HTML text is abstracted: the generator is modelled as producing
the data that the page embeds (section-1 statistics, pod cards, the Pareto
series, and which of the three initiative views is shown).
-/

/-! ## Rounding: the scripts round selected values to one decimal place -/

/-- Round half to even to the nearest integer, mirroring the behaviour of the
rounding builtin used by the scripts. -/
def rhe (x : ℚ) : ℤ :=
  if Int.fract x < 1/2 then ⌊x⌋
  else if 1/2 < Int.fract x then ⌊x⌋ + 1
  else if ⌊x⌋ % 2 = 0 then ⌊x⌋ else ⌊x⌋ + 1

/-- Round to one decimal place, half to even. -/
def round1 (x : ℚ) : ℚ := (rhe (10 * x) : ℚ) / 10

theorem floor_le_rhe (x : ℚ) : ⌊x⌋ ≤ rhe x := by
  unfold rhe; split_ifs <;> omega

theorem rhe_le_floor_add_one (x : ℚ) : rhe x ≤ ⌊x⌋ + 1 := by
  unfold rhe; split_ifs <;> omega

theorem rhe_intCast (n : ℤ) : rhe (n : ℚ) = n := by
  unfold rhe
  rw [Int.fract_intCast, Int.floor_intCast]
  norm_num

theorem rhe_mono {x y : ℚ} (h : x ≤ y) : rhe x ≤ rhe y := by
  rcases lt_or_eq_of_le (Int.floor_le_floor h) with hf | hf
  · calc rhe x ≤ ⌊x⌋ + 1 := rhe_le_floor_add_one x
    _ ≤ ⌊y⌋ := by omega
    _ ≤ rhe y := floor_le_rhe y
  · have hfr : Int.fract x ≤ Int.fract y := by
      unfold Int.fract; rw [hf]; linarith
    unfold rhe
    rw [hf]
    split_ifs <;> first | omega | linarith

theorem round1_mono {x y : ℚ} (h : x ≤ y) : round1 x ≤ round1 y := by
  unfold round1
  have : rhe (10 * x) ≤ rhe (10 * y) := rhe_mono (by linarith)
  have : ((rhe (10 * x) : ℤ) : ℚ) ≤ ((rhe (10 * y) : ℤ) : ℚ) := by exact_mod_cast this
  linarith

theorem round1_hundred : round1 100 = 100 := by
  unfold round1
  have : (10 * (100 : ℚ)) = ((1000 : ℤ) : ℚ) := by norm_num
  rw [this, rhe_intCast]
  norm_num

theorem round1_zero : round1 0 = 0 := by
  unfold round1
  have : (10 * (0 : ℚ)) = ((0 : ℤ) : ℚ) := by norm_num
  rw [this, rhe_intCast]
  norm_num

theorem round1_nonneg {x : ℚ} (h : 0 ≤ x) : 0 ≤ round1 x := by
  have := round1_mono h
  rwa [round1_zero] at this

theorem round1_le_hundred {x : ℚ} (h : x ≤ 100) : round1 x ≤ 100 := by
  have := round1_mono h
  rwa [round1_hundred] at this

/-! ## String containment, mirroring the substring test of the scripts -/

/-- Substring containment: the needle occurs contiguously in the haystack. -/
def containsTok (needle hay : String) : Bool :=
  decide (needle.toList <:+: hay.toList)

/-- Lowercasing, character by character. -/
def lowerStr (s : String) : String := String.mk (s.toList.map Char.toLower)

/-- Uppercasing, character by character. -/
def upperStr (s : String) : String := String.mk (s.toList.map Char.toUpper)

/-- Trimming of leading and trailing whitespace. -/
def trimStr (s : String) : String :=
  String.mk (((s.toList.dropWhile Char.isWhitespace).reverse.dropWhile
    Char.isWhitespace).reverse)

/-! ## Stable sorting

The scripts sort with a stable sort.  Stable sorting is modelled here by a
structural stable insertion sort: an element is inserted before the first
element it compares less-or-equal to, so elements comparing equal keep
their original relative order. -/

/-- Insert an element before the first position whose element it compares
less-or-equal to. -/
def sinsert {α : Type} (le : α → α → Bool) (a : α) : List α → List α
  | [] => [a]
  | y :: ys => if le a y then a :: y :: ys else y :: sinsert le a ys

/-- Stable insertion sort with respect to a boolean comparison. -/
def insSort {α : Type} (le : α → α → Bool) : List α → List α
  | [] => []
  | a :: t => sinsert le a (insSort le t)

theorem sinsert_perm {α : Type} (le : α → α → Bool) (a : α) (l : List α) :
    List.Perm (sinsert le a l) (a :: l) := by
  induction l with
  | nil => exact List.Perm.refl _
  | cons y ys ih =>
      unfold sinsert
      split_ifs with h
      · exact List.Perm.refl _
      · exact List.Perm.trans (List.Perm.cons y ih) (List.Perm.swap a y ys)

theorem insSort_perm {α : Type} (le : α → α → Bool) (l : List α) :
    List.Perm (insSort le l) l := by
  induction l with
  | nil => exact List.Perm.refl _
  | cons a t ih =>
      exact List.Perm.trans (sinsert_perm le a (insSort le t)) (List.Perm.cons a ih)

theorem sinsert_pairwise {α : Type} {le : α → α → Bool}
    (htot : ∀ a b : α, le a b = true ∨ le b a = true)
    (htrans : ∀ a b c : α, le a b = true → le b c = true → le a c = true)
    (a : α) (l : List α) (hs : List.Pairwise (fun x y => le x y = true) l) :
    List.Pairwise (fun x y => le x y = true) (sinsert le a l) := by
  induction l with
  | nil => simp [sinsert]
  | cons y ys ih =>
      unfold sinsert
      rcases List.pairwise_cons.mp hs with ⟨hy, hys⟩
      split_ifs with h
      · refine List.pairwise_cons.mpr ⟨?_, hs⟩
        intro z hz
        rcases List.mem_cons.mp hz with hzy | hzys
        · subst hzy; exact h
        · exact htrans a y z h (hy z hzys)
      · have hya : le y a = true := by
          rcases htot a y with h1 | h1
          · exact absurd h1 h
          · exact h1
        refine List.pairwise_cons.mpr ⟨?_, ih hys⟩
        intro z hz
        have hz2 : z ∈ a :: ys := (sinsert_perm le a ys).mem_iff.mp hz
        rcases List.mem_cons.mp hz2 with hza | hzys
        · subst hza; exact hya
        · exact hy z hzys

theorem insSort_pairwise {α : Type} {le : α → α → Bool}
    (htot : ∀ a b : α, le a b = true ∨ le b a = true)
    (htrans : ∀ a b c : α, le a b = true → le b c = true → le a c = true)
    (l : List α) :
    List.Pairwise (fun x y => le x y = true) (insSort le l) := by
  induction l with
  | nil => simp [insSort]
  | cons a t ih => exact sinsert_pairwise htot htrans a (insSort le t) ih

/-! ## Tracker fetch: cycles, sprint-window resolution, burndown -/

/-- Day count of a signed duration in seconds, flooring toward negative
infinity exactly as a normalised time delta reports whole days. -/
def daysTd (d : ℤ) : ℤ := Int.fdiv d 86400

structure SprintCycle where
  cid : ℕ
  cname : Option String
  number : ℕ
  startsAt : ℤ
  endsAt : ℤ
  scopeHistory : List ℚ
  completedScopeHistory : List ℚ
deriving DecidableEq, Repr

/-- The sprint-window tolerance test of the cycle-resolution loop: both the
start and the end of the cycle are within two (floored) days of the target. -/
def cycleMatchesWindow (tstart tend : ℤ) (c : SprintCycle) : Bool :=
  decide (|daysTd (c.startsAt - tstart)| ≤ 2 ∧ |daysTd (c.endsAt - tend)| ≤ 2)

/-- The fallback test: the current instant lies inside the cycle interval. -/
def cycleActiveAt (now : ℤ) (c : SprintCycle) : Bool :=
  decide (c.startsAt ≤ now ∧ now ≤ c.endsAt)

/-- Cycles sorted ascending by start time (stable). -/
def sortCycles (cycles : List SprintCycle) : List SprintCycle :=
  insSort (fun a b => decide (a.startsAt ≤ b.startsAt)) cycles

/-- The scan of the sorted cycle list: the first window match becomes current,
the immediately following cycle (if any) becomes next. -/
def walkForMatch (tstart tend : ℤ) : List SprintCycle → Option (SprintCycle × Option SprintCycle)
  | [] => none
  | c :: rest =>
      if cycleMatchesWindow tstart tend c then some (c, rest.head?)
      else walkForMatch tstart tend rest

/-- Resolution of the current and next sprint cycle for a team. -/
def findSprintCycles (cycles : List SprintCycle) (tstart tend now : ℤ) :
    Option SprintCycle × Option SprintCycle :=
  let sorted := sortCycles cycles
  match walkForMatch tstart tend sorted with
  | some (c, nxt) => (some c, nxt)
  | none =>
      let active := sorted.filter (cycleActiveAt now)
      match active.getLast? with
      | some cur => (some cur, sorted.get? (sorted.indexOf cur + 1))
      | none => (none, none)

structure BurndownEntry where
  dayIndex : ℕ
  remaining : ℚ
  ideal : ℚ
deriving DecidableEq, Repr

/-- The ideal-line value before rounding: linear decay of the initial scope
over the whole sprint, clamped at zero. -/
def idealAt (initialScope : ℚ) (sprintDays : ℤ) (i : ℕ) : ℚ :=
  max 0 (initialScope - (initialScope / (sprintDays : ℚ)) * (i : ℚ))

/-- The burndown loop body: pairs scope and completed-scope entries day by
day, stopping at the shorter history. -/
def burndownAux (initialScope : ℚ) (sprintDays : ℤ) :
    ℕ → List ℚ → List ℚ → List BurndownEntry
  | _, [], _ => []
  | _, _ :: _, [] => []
  | i, s :: ss, d :: ds =>
      { dayIndex := i,
        remaining := max 0 (s - d),
        ideal := round1 (idealAt initialScope sprintDays i) }
        :: burndownAux initialScope sprintDays (i + 1) ss ds

/-- Burndown computation for a cycle: empty when there is no scope history,
otherwise one entry per paired history day. -/
def calculateBurndown (c : SprintCycle) : List BurndownEntry :=
  match c.scopeHistory with
  | [] => []
  | s0 :: _ =>
      burndownAux s0 (max (daysTd (c.endsAt - c.startsAt)) 1) 0
        c.scopeHistory c.completedScopeHistory

/-! ## Spreadsheet fetch: readiness classification and initiative parsing -/

/-- The fixed, ordered keyword table mapping readiness keywords to stage
labels, in the iteration order of the script. -/
def readinessTable : List (String × String) :=
  [("TODO",              "Ready for Engineering (Not Yet Picked Up)"),
   ("Waiting More Info", "Waiting More Info (Additional Work Needed)"),
   ("Business Intent",   "Business Intent Not Defined"),
   ("PRD",               "PRD In Discussion"),
   ("Design",            "Design Pending"),
   ("Vendor",            "Vendor Selection In Progress"),
   ("Legal",             "Legal / Compliance Review"),
   ("In Progress",       "In Progress"),
   ("Done",              "Completed")]

/-- The classification loop: return the label of the first table entry whose
keyword occurs case-insensitively in the (already trimmed) value. -/
def lookupStage (val : String) : List (String × String) → Option String
  | [] => none
  | kv :: rest =>
      if containsTok (lowerStr kv.1) (lowerStr val) then some kv.2
      else lookupStage val rest

/-- Readiness classification: empty raw text yields the fixed unknown label,
a keyword match yields that stage label, otherwise the trimmed raw text. -/
def categorizeReadiness (raw : String) : String :=
  if raw = "" then "Unknown / Not Set"
  else
    match lookupStage (trimStr raw) readinessTable with
    | some lbl => lbl
    | none => trimStr raw

/-- Second definition following the wording of the specification: the first
matching entry of the ordered table wins, matching case-insensitively; no
match returns the trimmed raw text; empty raw text returns the fixed label. -/
def categorizeReadinessSpec (raw : String) : String :=
  if raw = "" then "Unknown / Not Set"
  else
    match readinessTable.find? (fun kv => containsTok (lowerStr kv.1) (lowerStr (trimStr raw))) with
    | some kv => kv.2
    | none => trimStr raw

/-- The ready-for-engineering flag: the raw text, uppercased, contains the
token TODO; empty raw text yields false. -/
def isReadyFlag (raw : String) : Bool :=
  if raw = "" then false else containsTok "TODO" (upperStr raw)

/-- The waiting-on-info flag: the raw text, lowercased, contains the token
waiting; empty raw text yields false. -/
def isWaitingFlag (raw : String) : Bool :=
  if raw = "" then false else containsTok "waiting" (lowerStr raw)

structure Initiative where
  rowNum : ℕ
  name : String
  pillar : String
  status : String
  owner : String
  description : String
  priority : String
  targetDate : String
  engReadinessRaw : String
  engReadinessStage : String
  isReadyForEng : Bool
  isWaitingInfo : Bool
deriving DecidableEq, Repr

/-- Cell access within a row: positional, defaulting to the empty string for
missing trailing cells, and trimmed. -/
def cellAt (row : List String) (idx : ℕ) : String := trimStr (row.getD idx "")

/-- Parse one sheet row into an initiative; rows with an empty name cell are
dropped. Column indices: A=0 name, B=1 pillar, C=2 status, D=3 owner,
E=4 description, F=5 priority, G=6 target date, N=13 readiness. -/
def parseRow (rowNum : ℕ) (row : List String) : Option Initiative :=
  if cellAt row 0 = "" then none
  else
    some
      { rowNum := rowNum,
        name := cellAt row 0,
        pillar := cellAt row 1,
        status := cellAt row 2,
        owner := cellAt row 3,
        description := cellAt row 4,
        priority := cellAt row 5,
        targetDate := cellAt row 6,
        engReadinessRaw := cellAt row 13,
        engReadinessStage := categorizeReadiness (cellAt row 13),
        isReadyForEng := isReadyFlag (cellAt row 13),
        isWaitingInfo := isWaitingFlag (cellAt row 13) }

/-- Parse data rows, numbering them from 2 (row 1 is the header). -/
def parseRowsFrom (n : ℕ) : List (List String) → List Initiative
  | [] => []
  | r :: rs =>
      match parseRow n r with
      | some i => i :: parseRowsFrom (n + 1) rs
      | none => parseRowsFrom (n + 1) rs

/-- Parse initiative rows: an empty fetch yields no initiatives, otherwise
the first row is the ignored header and the rest are data rows. -/
def parseInitiatives (rows : List (List String)) : List Initiative :=
  match rows with
  | [] => []
  | _header :: rest => parseRowsFrom 2 rest

/-- Append an initiative to its stage group, preserving first-occurrence
order of stages, as the insertion-ordered grouping of the script does. -/
def addToStageGroup (groups : List (String × List Initiative)) (i : Initiative) :
    List (String × List Initiative) :=
  if groups.any (fun g => g.1 == i.engReadinessStage) then
    groups.map (fun g =>
      if g.1 == i.engReadinessStage then (g.1, g.2 ++ [i]) else g)
  else groups ++ [(i.engReadinessStage, [i])]

/-- Group initiatives by readiness stage in insertion order. -/
def groupByStage (inits : List Initiative) : List (String × List Initiative) :=
  inits.foldl addToStageGroup []

structure SheetsOutput where
  initiatives : List Initiative
  byStage : List (String × List Initiative)
  totalCount : ℕ
  readyForEng : List Initiative
  waitingInfo : List Initiative
  accessError : Bool
deriving DecidableEq, Repr

/-- The rows obtained from the sheet fetch on the non-aborting paths: a
caught HTTP error response is recovered by substituting an empty row set.
Fetch failures that the stage does not catch are modelled separately by
the dispatch over the full fetch outcome below. -/
def rowsOf (fetched : Except Unit (List (List String))) : List (List String) :=
  match fetched with
  | .error _ => []
  | .ok rs => rs

/-- The sheet-fetch stage output as a function of the fetch result: parse,
group, derive the flag lists, and record the access-error flag, which is set
exactly when zero rows were obtained. -/
def sheetsMain (fetched : Except Unit (List (List String))) : SheetsOutput :=
  let rows := rowsOf fetched
  let inits := parseInitiatives rows
  { initiatives := inits,
    byStage := groupByStage inits,
    totalCount := inits.length,
    readyForEng := inits.filter (fun i => i.isReadyForEng),
    waitingInfo := inits.filter (fun i => i.isWaitingInfo),
    accessError := rows.isEmpty }

/-- The possible outcomes of the sheet fetch call.  The stage's exception
handler catches only the HTTP-error-response exception class; any other
fetch failure — a timeout or connection failure, or the missing-credential
error raised before the request — is not caught there. -/
inductive SheetFetchResult where
  | ok : List (List String) → SheetFetchResult
  | httpError : SheetFetchResult
  | uncaughtError : SheetFetchResult
deriving DecidableEq, Repr

/-- The sheet-fetch stage as a function of the full fetch outcome: a
successful fetch and a caught HTTP error response produce a snapshot (the
latter with an empty row set), while an uncaught failure aborts the stage,
so no snapshot is produced at all. -/
def sheetsMainOpt : SheetFetchResult → Option SheetsOutput
  | .ok rows => some (sheetsMain (Except.ok rows))
  | .httpError => some (sheetsMain (Except.error ()))
  | .uncaughtError => none

/-! ## Report generation: aggregation and the rendered data -/

structure Issue where
  iid : ℕ
  identifier : String
  title : String
  stateType : String
  assigneeName : Option String
  estimate : Option ℚ
  updatedAt : Option ℤ
  labels : List String
deriving DecidableEq, Repr

/-- Story points of an issue, treating a missing estimate as zero. -/
def estPts (i : Issue) : ℚ := i.estimate.getD 0

/-- State types counted as completed. -/
def isCompletedType (t : String) : Bool := t == "completed" || t == "done"

/-- State types counted as in progress. -/
def isStartedType (t : String) : Bool := t == "started"

/-- An issue is blocked when it carries a label whose lowercased name is the
blocked label. -/
def isBlockedIssue (i : Issue) : Bool :=
  (i.labels.map lowerStr).contains "blocked"

/-- An issue is stale when it is in progress, has an update timestamp, and
that timestamp is more than three (floored) days older than now. -/
def isStaleIssue (now : ℤ) (i : Issue) : Bool :=
  if isStartedType i.stateType then
    match i.updatedAt with
    | none => false
    | some t => decide (3 < daysTd (now - t))
  else false

structure CurrentData where
  cycle : SprintCycle
  issues : List Issue
  burndown : List BurndownEntry
deriving DecidableEq, Repr

structure NextData where
  cycle : SprintCycle
  issues : List Issue
deriving DecidableEq, Repr

structure PodData where
  current : Option CurrentData
  next : Option NextData
  backlog : List Issue
deriving DecidableEq, Repr

structure LinearData where
  pods : List (String × PodData)
deriving DecidableEq, Repr

structure EngStats where
  total : ℕ
  completed : ℕ
  inProgress : ℕ
  points : ℚ
  donePoints : ℚ
deriving DecidableEq, Repr

/-- Update one engineer accumulator with one issue. -/
def bumpEng (i : Issue) (e : EngStats) : EngStats :=
  let e1 := { e with total := e.total + 1, points := e.points + estPts i }
  if isCompletedType i.stateType then
    { e1 with completed := e1.completed + 1, donePoints := e1.donePoints + estPts i }
  else if isStartedType i.stateType then
    { e1 with inProgress := e1.inProgress + 1 }
  else e1

/-- Insertion-ordered per-assignee rollup; a missing assignee is bucketed
under the fixed unassigned name. -/
def addEng (acc : List (String × EngStats)) (i : Issue) : List (String × EngStats) :=
  let a := i.assigneeName.getD "Unassigned"
  if acc.any (fun p => p.1 == a) then
    acc.map (fun p => if p.1 == a then (p.1, bumpEng i p.2) else p)
  else acc ++ [(a, bumpEng i ⟨0, 0, 0, 0, 0⟩)]

structure PodStats where
  pod : String
  cycleName : String
  total : ℕ
  completed : ℕ
  inProgress : ℕ
  canceled : ℕ
  totalPts : ℚ
  donePts : ℚ
  pctTickets : ℚ
  pctPoints : ℚ
  engineers : List (String × EngStats)
  blocked : List Issue
  stale : List Issue
  burndown : List BurndownEntry
deriving DecidableEq, Repr

/-- Display name of a cycle: its name when present and non-empty, otherwise
a generic label from its number. -/
def cycleDisplayName (c : SprintCycle) : String :=
  match c.cname with
  | some n => if n = "" then "Cycle " ++ toString c.number else n
  | none => "Cycle " ++ toString c.number

/-- The issues of a pod current-sprint record, empty when there is none. -/
def currentIssues (pd : PodData) : List Issue :=
  match pd.current with
  | some cd => cd.issues
  | none => []

/-- Total points of a list of issues, missing estimates counted as zero. -/
def totalPtsOf (issues : List Issue) : ℚ := (issues.map estPts).sum

/-- Per-pod current-sprint aggregation. -/
def aggregatePodStats (now : ℤ) (podName : String) (pd : PodData) : PodStats :=
  let issues := currentIssues pd
  let total := issues.length
  let completed := (issues.filter (fun i => isCompletedType i.stateType)).length
  let inProg := (issues.filter (fun i => isStartedType i.stateType)).length
  let canceled := (issues.filter (fun i => i.stateType == "cancelled")).length
  let totalPts := totalPtsOf issues
  let donePts := totalPtsOf (issues.filter (fun i => isCompletedType i.stateType))
  { pod := podName,
    cycleName :=
      match pd.current with
      | some cd => cycleDisplayName cd.cycle
      | none => "Cycle ?",
    total := total,
    completed := completed,
    inProgress := inProg,
    canceled := canceled,
    totalPts := totalPts,
    donePts := donePts,
    pctTickets := if total = 0 then 0 else round1 (100 * (completed : ℚ) / (total : ℚ)),
    pctPoints := if totalPts = 0 then 0 else round1 (100 * donePts / totalPts),
    engineers := issues.foldl addEng [],
    blocked := issues.filter (fun i => isBlockedIssue i),
    stale := issues.filter (fun i => isStaleIssue now i),
    burndown :=
      match pd.current with
      | some cd => cd.burndown
      | none => [] }

structure NextEngStats where
  total : ℕ
  points : ℚ
deriving DecidableEq, Repr

/-- Insertion-ordered per-assignee rollup for the next sprint. -/
def addNextEng (acc : List (String × NextEngStats)) (i : Issue) :
    List (String × NextEngStats) :=
  let a := i.assigneeName.getD "Unassigned"
  if acc.any (fun p => p.1 == a) then
    acc.map (fun p =>
      if p.1 == a then (p.1, ⟨p.2.total + 1, p.2.points + estPts i⟩) else p)
  else acc ++ [(a, ⟨1, estPts i⟩)]

structure NextPodStats where
  pod : String
  total : ℕ
  totalPts : ℚ
  engineers : List (String × NextEngStats)
  issues : List Issue
  cycle : SprintCycle
deriving DecidableEq, Repr

/-- Issues sorted descending by story points, stably. -/
def sortIssuesDesc (l : List Issue) : List Issue :=
  insSort (fun a b => decide (estPts b ≤ estPts a)) l

/-- The issues of a pod next-sprint record, empty when there is none. -/
def nextIssues (pd : PodData) : List Issue :=
  match pd.next with
  | some nd => nd.issues
  | none => []

/-- Per-pod next-sprint aggregation. -/
def aggregateNextSprint (podName : String) (pd : PodData) : Option NextPodStats :=
  match pd.next with
  | none => none
  | some nd =>
      some
        { pod := podName,
          total := nd.issues.length,
          totalPts := totalPtsOf nd.issues,
          engineers := nd.issues.foldl addNextEng [],
          issues := sortIssuesDesc nd.issues,
          cycle := nd.cycle }

/-- The pods that contribute current-sprint statistics: those with a current
cycle record. -/
def currentStatsOf (now : ℤ) (linear : LinearData) : List PodStats :=
  (linear.pods.filter (fun p => p.2.current.isSome)).map
    (fun p => aggregatePodStats now p.1 p.2)

/-- The pods that contribute next-sprint statistics: those with a next cycle
record holding a non-empty issue list. -/
def nextStatsOf (linear : LinearData) : List NextPodStats :=
  (linear.pods.filter (fun p =>
      match p.2.next with
      | some nd => decide (nd.issues ≠ [])
      | none => false)).filterMap
    (fun p => aggregateNextSprint p.1 p.2)

/-- Prefix sums with a running accumulator, as the cumulative loop of the
Pareto block computes them. -/
def cumFrom (acc : ℚ) : List ℚ → List ℚ
  | [] => []
  | p :: rest => (acc + p) :: cumFrom (acc + p) rest

/-- The cumulative-percentage series over the truncated Pareto point list:
the denominator is the truncated total, replaced by one when that total is
zero, and each value is rounded to one decimal. -/
def paretoCumulative (ptsList : List ℚ) : List ℚ :=
  let total := ptsList.sum
  let denom := if total = 0 then 1 else total
  (cumFrom 0 ptsList).map (fun c => round1 (100 * c / denom))

/-- All next-sprint issues flattened to (identifier, points) pairs, in pod
order, each pod already sorted descending. -/
def paretoEntriesOf (nxt : List NextPodStats) : List (String × ℚ) :=
  nxt.flatMap (fun ns => ns.issues.map (fun i => (i.identifier, estPts i)))

/-- Stable descending sort of Pareto entries by points. -/
def sortParetoDesc (l : List (String × ℚ)) : List (String × ℚ) :=
  insSort (fun a b => decide (b.2 ≤ a.2)) l

structure Section1 where
  overallTotal : ℕ
  overallDone : ℕ
  overallPts : ℚ
  overallDonePts : ℚ
  overallPctTickets : ℚ
  overallPctPoints : ℚ
  activePods : ℕ
  blockedCount : ℕ
  staleCount : ℕ
  podCards : List PodStats
deriving DecidableEq, Repr

structure NextSection where
  nextTotal : ℕ
  nextTotalPts : ℚ
  pods : List NextPodStats
deriving DecidableEq, Repr

inductive InitiativesView where
  | accessNotice : InitiativesView
  | noData : InitiativesView
  | tables : List (String × List Initiative) → InitiativesView
deriving DecidableEq, Repr

structure Report where
  section1 : Section1
  nextSection : Option NextSection
  paretoTop : List (String × ℚ)
  paretoCumulativePct : List ℚ
  initiativesView : InitiativesView
deriving DecidableEq, Repr

/-- The fixed display order of readiness stages in the initiatives section. -/
def readinessOrder : List String :=
  ["Ready for Engineering (Not Yet Picked Up)",
   "Waiting More Info (Additional Work Needed)",
   "Business Intent Not Defined",
   "PRD In Discussion",
   "Design Pending",
   "Vendor Selection In Progress",
   "Legal / Compliance Review",
   "Unknown / Not Set"]

/-- The initiative tables in display order: the fixed stage order first,
skipping empty groups, then the remaining non-empty stages in snapshot
order. -/
def orderedGroups (byStage : List (String × List Initiative)) :
    List (String × List Initiative) :=
  (readinessOrder.filterMap fun st =>
      match byStage.find? (fun g => g.1 == st) with
      | some g => if g.2 = [] then none else some g
      | none => none)
    ++ byStage.filter (fun g => ¬ readinessOrder.contains g.1 ∧ g.2 ≠ [])

/-- Which initiatives block the page shows: the instructional access notice
when the access-error flag is set, a no-data card when the stage grouping is
empty, and the stage tables otherwise. -/
def initiativesViewOf (sheets : SheetsOutput) : InitiativesView :=
  if sheets.accessError then .accessNotice
  else if sheets.byStage.isEmpty then .noData
  else .tables (orderedGroups sheets.byStage)

/-- The report data as a function of the two snapshots. -/
def generateReport (now : ℤ) (linear : LinearData) (sheets : SheetsOutput) : Report :=
  let cur := currentStatsOf now linear
  let nxt := nextStatsOf linear
  let overallTotal := (cur.map (fun s => s.total)).sum
  let overallDone := (cur.map (fun s => s.completed)).sum
  let overallPts := (cur.map (fun s => s.totalPts)).sum
  let overallDonePts := (cur.map (fun s => s.donePts)).sum
  let top := (sortParetoDesc (paretoEntriesOf nxt)).take 25
  { section1 :=
      { overallTotal := overallTotal,
        overallDone := overallDone,
        overallPts := overallPts,
        overallDonePts := overallDonePts,
        overallPctTickets :=
          if overallTotal = 0 then 0
          else round1 (100 * (overallDone : ℚ) / (overallTotal : ℚ)),
        overallPctPoints :=
          if overallPts = 0 then 0 else round1 (100 * overallDonePts / overallPts),
        activePods := cur.length,
        blockedCount := (cur.map (fun s => s.blocked.length)).sum,
        staleCount := (cur.map (fun s => s.stale.length)).sum,
        podCards := cur },
    nextSection :=
      if nxt.isEmpty then none
      else
        some
          { nextTotal := (nxt.map (fun ns => ns.total)).sum,
            nextTotalPts := (nxt.map (fun ns => ns.totalPts)).sum,
            pods := nxt },
    paretoTop := top,
    paretoCumulativePct := paretoCumulative (top.map (fun p => p.2)),
    initiativesView := initiativesViewOf sheets }

/-! ## Helper lemmas -/

theorem lookupStage_eq (val : String) (t : List (String × String)) :
    lookupStage val t
      = (t.find? (fun kv => containsTok (lowerStr kv.1) (lowerStr val))).map (fun kv => kv.2) := by
  induction t with
  | nil => rfl
  | cons kv rest ih =>
      by_cases h : containsTok (lowerStr kv.1) (lowerStr val)
      · simp [lookupStage, List.find?, h]
      · simp only [Bool.not_eq_true] at h
        simp [lookupStage, List.find?, h, ih]

theorem isReadyFlag_eq (raw : String) :
    isReadyFlag raw = containsTok "TODO" (upperStr raw) := by
  unfold isReadyFlag
  split_ifs with h
  · subst h; decide
  · rfl

theorem isWaitingFlag_eq (raw : String) :
    isWaitingFlag raw = containsTok "waiting" (lowerStr raw) := by
  unfold isWaitingFlag
  split_ifs with h
  · subst h; decide
  · rfl

theorem parseRow_flags {n : ℕ} {row : List String} {init : Initiative}
    (h : parseRow n row = some init) :
    init.isReadyForEng = isReadyFlag init.engReadinessRaw
      ∧ init.isWaitingInfo = isWaitingFlag init.engReadinessRaw
      ∧ init.engReadinessStage = categorizeReadiness init.engReadinessRaw := by
  unfold parseRow at h
  split_ifs at h
  simp only [Option.some.injEq] at h
  subst h
  exact ⟨rfl, rfl, rfl⟩

theorem mem_parseRowsFrom_flags :
    ∀ (rs : List (List String)) (n : ℕ) (init : Initiative),
      init ∈ parseRowsFrom n rs →
      init.isReadyForEng = isReadyFlag init.engReadinessRaw
        ∧ init.isWaitingInfo = isWaitingFlag init.engReadinessRaw
        ∧ init.engReadinessStage = categorizeReadiness init.engReadinessRaw := by
  intro rs
  induction rs with
  | nil => intro n init h; simp [parseRowsFrom] at h
  | cons r rest ih =>
      intro n init h
      unfold parseRowsFrom at h
      rcases hp : parseRow n r with _ | i
      · rw [hp] at h
        exact ih (n + 1) init h
      · rw [hp] at h
        rcases List.mem_cons.mp h with heq | hmem
        · subst heq; exact parseRow_flags hp
        · exact ih (n + 1) init hmem

/-! ## Claim C3: readiness classification -/

/-- C3: readiness classification is a total function agreeing with the
spec-level first-match-wins description: matching is case-insensitive
substring search over the fixed ordered keyword table, the first matching
entry wins (a string containing both the PRD and the Design keyword maps to
the PRD label, which is earlier in the table, regardless of letter case or
position), an unmatched non-empty string yields its trimmed raw text
unchanged, and an empty string yields the fixed unknown label. -/
theorem c3_readiness_classification (raw : String) :
    categorizeReadiness raw = categorizeReadinessSpec raw
  ∧ (raw = "" → categorizeReadiness raw = "Unknown / Not Set")
  ∧ (raw ≠ "" →
      readinessTable.find?
          (fun kv => containsTok (lowerStr kv.1) (lowerStr (trimStr raw))) = none →
      categorizeReadiness raw = trimStr raw)
  ∧ categorizeReadiness "has PRD and Design here" = "PRD In Discussion"
  ∧ categorizeReadiness "design prd" = "PRD In Discussion" := by
  refine ⟨?_, ?_, ?_, by decide, by decide⟩
  · unfold categorizeReadiness categorizeReadinessSpec
    by_cases h : raw = ""
    · simp [h]
    · simp only [h, if_false]
      rw [lookupStage_eq]
      rcases hf : readinessTable.find?
          (fun kv => containsTok (lowerStr kv.1) (lowerStr (trimStr raw))) with _ | kv
        <;> rw [hf] <;> rfl
  · intro h
    simp [categorizeReadiness, h]
  · intro h hf
    simp [categorizeReadiness, h, lookupStage_eq, hf]

/-- C3 witness: the empty string is classified as the fixed unknown label. -/
theorem c3_readiness_classification_witness :
    categorizeReadiness "" = "Unknown / Not Set" :=
  (c3_readiness_classification "").2.1 rfl

/-! ## Claim C5: derived readiness flags -/

/-- C5 counterexample: the ready-for-engineering flag is set by the raw text
"todo" even though a case-sensitive containment check for the token TODO
rejects that text, so the flag computation is not case-sensitive. -/
theorem c5_flags_counterexample :
    isReadyFlag "todo" = true ∧ containsTok "TODO" "todo" = false := by
  decide

/-- C5 (amended): for every initiative row the ready-for-engineering flag is
true iff the raw readiness text, uppercased, contains the token TODO (a
case-insensitive match), the waiting-on-info flag is true iff the raw text,
lowercased, contains the token waiting; both flags depend only on the raw
text, not on the stage classification; and the scenario raw text maps to
the expected stage and flags. -/
theorem c5_flags_from_raw_text (rows : List (List String)) (init : Initiative)
    (h : init ∈ parseInitiatives rows) :
    init.isReadyForEng = containsTok "TODO" (upperStr init.engReadinessRaw)
  ∧ init.isWaitingInfo = containsTok "waiting" (lowerStr init.engReadinessRaw)
  ∧ isReadyFlag "TODO - needs spec" = true
  ∧ isWaitingFlag "TODO - needs spec" = false
  ∧ categorizeReadiness "TODO - needs spec"
      = "Ready for Engineering (Not Yet Picked Up)" := by
  have hf :
      init.isReadyForEng = isReadyFlag init.engReadinessRaw
        ∧ init.isWaitingInfo = isWaitingFlag init.engReadinessRaw
        ∧ init.engReadinessStage = categorizeReadiness init.engReadinessRaw := by
    unfold parseInitiatives at h
    cases rows with
    | nil => simp at h
    | cons hd rest => exact mem_parseRowsFrom_flags rest 2 init h
  exact ⟨hf.1.trans (isReadyFlag_eq _), hf.2.1.trans (isWaitingFlag_eq _),
    by decide, by decide, by decide⟩

def c5rows : List (List String) :=
  [["Initiative", "Pillar"],
   ["Init A", "", "", "", "", "", "", "", "", "", "", "", "", "TODO - needs spec"]]

def c5parsedInit : Initiative :=
  { rowNum := 2, name := "Init A", pillar := "", status := "", owner := "",
    description := "", priority := "", targetDate := "",
    engReadinessRaw := "TODO - needs spec",
    engReadinessStage := "Ready for Engineering (Not Yet Picked Up)",
    isReadyForEng := true, isWaitingInfo := false }

/-- C5 witness: the parsed scenario row carries the flag computed from its
raw readiness text. -/
theorem c5_flags_from_raw_text_witness :
    c5parsedInit.isReadyForEng
      = containsTok "TODO" (upperStr c5parsedInit.engReadinessRaw) :=
  (c5_flags_from_raw_text c5rows c5parsedInit (by decide)).1

/-! ## Claim C8: sheet fetch failure -/

/-- C8 counterexample: a transport failure that is not an HTTP error
response — a timeout or connection failure — is not caught by the stage's
exception handler, so the stage aborts and produces no snapshot at all,
while the caught HTTP error response does produce one.  The claimed
snapshot with the access-error flag therefore does not exist on that
transport-error path. -/
theorem c8_sheet_failure_counterexample :
    sheetsMainOpt SheetFetchResult.uncaughtError = none
  ∧ sheetsMainOpt SheetFetchResult.httpError
      = some (sheetsMain (Except.error ())) :=
  ⟨rfl, rfl⟩

/-- C8 (amended): when the sheet fetch fails with an HTTP error response,
the stage does not abort: it produces a snapshot with the access-error flag
set and no initiatives, the renderer shows the fixed instructional notice
instead of initiative tables, and section 1 of the report is exactly what
it would be with any other sheet snapshot.  A fetch failure of any other
kind — a timeout, a connection failure, or a missing credential — is not
caught, so the stage aborts and no snapshot is produced. -/
theorem c8_sheet_failure_recovery :
    sheetsMainOpt SheetFetchResult.httpError
      = some (sheetsMain (Except.error ()))
  ∧ (sheetsMain (Except.error ())).accessError = true
  ∧ (sheetsMain (Except.error ())).initiatives = []
  ∧ sheetsMainOpt SheetFetchResult.uncaughtError = none
  ∧ ∀ (now : ℤ) (linear : LinearData) (sheets2 : SheetsOutput),
      (generateReport now linear (sheetsMain (Except.error ()))).initiativesView
          = InitiativesView.accessNotice
      ∧ (generateReport now linear (sheetsMain (Except.error ()))).section1
          = (generateReport now linear sheets2).section1 :=
  ⟨rfl, rfl, rfl, rfl, fun _ _ _ => ⟨rfl, rfl⟩⟩

/-! ## Claim C10: the access-error flag conflates empty sheets with failures -/

/-- C10: the snapshot access-error flag is true exactly when zero rows were
obtained, a successful fetch of an empty sheet produces a snapshot identical
to the transport-failure snapshot, and the renderer shows the access-failure
notice for it. -/
theorem c10_access_error_iff_zero_rows (fetched : Except Unit (List (List String))) :
    ((sheetsMain fetched).accessError = true ↔ rowsOf fetched = [])
  ∧ sheetsMain (Except.ok []) = sheetsMain (Except.error ())
  ∧ ∀ (now : ℤ) (linear : LinearData),
      (generateReport now linear (sheetsMain (Except.ok []))).initiativesView
        = InitiativesView.accessNotice := by
  refine ⟨?_, rfl, fun _ _ => rfl⟩
  show (rowsOf fetched).isEmpty = true ↔ rowsOf fetched = []
  rcases h : rowsOf fetched with _ | ⟨r, rs⟩ <;> simp [h]

/-- C10 witness: a fetch that obtains one row does not set the flag. -/
theorem c10_access_error_iff_zero_rows_witness :
    (sheetsMain (Except.ok [["x"]])).accessError = false := by
  have h := (c10_access_error_iff_zero_rows (Except.ok [["x"]])).1
  rcases hb : (sheetsMain (Except.ok [["x"]])).accessError
  · rfl
  · exact absurd (h.mp hb) (by decide)

/-! ## Claim C6: per-pod aggregate invariants -/

theorem length_filter_three_le {α : Type} (p q r : α → Bool) (l : List α)
    (hpq : ∀ x ∈ l, p x = true → q x = false)
    (hpr : ∀ x ∈ l, p x = true → r x = false)
    (hqr : ∀ x ∈ l, q x = true → r x = false) :
    (l.filter p).length + (l.filter q).length + (l.filter r).length ≤ l.length := by
  induction l with
  | nil => simp
  | cons a t ih =>
      have ih' := ih (fun x hx => hpq x (List.mem_cons_of_mem a hx))
        (fun x hx => hpr x (List.mem_cons_of_mem a hx))
        (fun x hx => hqr x (List.mem_cons_of_mem a hx))
      by_cases hp : p a = true
      · have hq := hpq a (List.mem_cons_self a t) hp
        have hr := hpr a (List.mem_cons_self a t) hp
        simp only [List.filter_cons, hp, hq, hr, if_true, if_false, Bool.false_eq_true,
          List.length_cons]
        omega
      · replace hp : p a = false := by revert hp; cases p a <;> simp
        by_cases hq : q a = true
        · have hr := hqr a (List.mem_cons_self a t) hq
          simp only [List.filter_cons, hp, hq, hr, if_true, if_false, Bool.false_eq_true,
            List.length_cons]
          omega
        · replace hq : q a = false := by revert hq; cases q a <;> simp
          by_cases hr : r a = true
          · simp only [List.filter_cons, hp, hq, hr, if_true, if_false, Bool.false_eq_true,
              List.length_cons]
            omega
          · replace hr : r a = false := by revert hr; cases r a <;> simp
            simp only [List.filter_cons, hp, hq, hr, if_false, Bool.false_eq_true,
              List.length_cons]
            omega

theorem completedType_not_started {t : String} (h : isCompletedType t = true) :
    isStartedType t = false := by
  simp only [isCompletedType, Bool.or_eq_true, beq_iff_eq] at h
  rcases h with h | h <;> subst h <;> decide

theorem completedType_not_cancelled {t : String} (h : isCompletedType t = true) :
    (t == "cancelled") = false := by
  simp only [isCompletedType, Bool.or_eq_true, beq_iff_eq] at h
  rcases h with h | h <;> subst h <;> decide

theorem startedType_not_cancelled {t : String} (h : isStartedType t = true) :
    (t == "cancelled") = false := by
  simp only [isStartedType, beq_iff_eq] at h
  subst h
  decide

/-- Replace a missing estimate by an explicit zero estimate. -/
def zeroMissingEstimate (i : Issue) : Issue :=
  { i with estimate := some (i.estimate.getD 0) }

/-- Apply a transformation to every current-sprint issue of a pod. -/
def mapCurrentIssues (f : Issue → Issue) (pd : PodData) : PodData :=
  { pd with current := pd.current.map (fun cd => { cd with issues := cd.issues.map f }) }

theorem aggregatePodStats_total (now : ℤ) (n : String) (pd : PodData) :
    (aggregatePodStats now n pd).total = (currentIssues pd).length := rfl

theorem aggregatePodStats_completed (now : ℤ) (n : String) (pd : PodData) :
    (aggregatePodStats now n pd).completed
      = ((currentIssues pd).filter (fun i => isCompletedType i.stateType)).length := rfl

theorem aggregatePodStats_inProgress (now : ℤ) (n : String) (pd : PodData) :
    (aggregatePodStats now n pd).inProgress
      = ((currentIssues pd).filter (fun i => isStartedType i.stateType)).length := rfl

theorem aggregatePodStats_canceled (now : ℤ) (n : String) (pd : PodData) :
    (aggregatePodStats now n pd).canceled
      = ((currentIssues pd).filter (fun i => i.stateType == "cancelled")).length := rfl

theorem aggregatePodStats_totalPts (now : ℤ) (n : String) (pd : PodData) :
    (aggregatePodStats now n pd).totalPts = totalPtsOf (currentIssues pd) := rfl

theorem aggregatePodStats_pctTickets (now : ℤ) (n : String) (pd : PodData) :
    (aggregatePodStats now n pd).pctTickets
      = if (currentIssues pd).length = 0 then 0
        else round1 (100 *
          (((currentIssues pd).filter (fun i => isCompletedType i.stateType)).length : ℚ)
          / ((currentIssues pd).length : ℚ)) := rfl

theorem currentIssues_mapCurrentIssues (f : Issue → Issue) (pd : PodData) :
    currentIssues (mapCurrentIssues f pd) = (currentIssues pd).map f := by
  rcases pd with ⟨cur, nxt, bl⟩
  rcases cur with _ | cd <;> rfl

theorem totalPtsOf_zeroMissing (l : List Issue) :
    totalPtsOf (l.map zeroMissingEstimate) = totalPtsOf l := by
  unfold totalPtsOf
  rw [List.map_map]
  rfl

/-- C6: for every pod the aggregated counts satisfy completed plus
in-progress plus cancelled at most total, the ticket percentage lies between
0 and 100 and is 0 when the issue count is 0, and replacing missing
estimates by explicit zeros leaves the point total unchanged. -/
theorem c6_pod_aggregates (now : ℤ) (podName : String) (pd : PodData) :
    (aggregatePodStats now podName pd).completed
      + (aggregatePodStats now podName pd).inProgress
      + (aggregatePodStats now podName pd).canceled
      ≤ (aggregatePodStats now podName pd).total
  ∧ 0 ≤ (aggregatePodStats now podName pd).pctTickets
  ∧ (aggregatePodStats now podName pd).pctTickets ≤ 100
  ∧ ((aggregatePodStats now podName pd).total = 0 →
      (aggregatePodStats now podName pd).pctTickets = 0)
  ∧ (aggregatePodStats now podName (mapCurrentIssues zeroMissingEstimate pd)).totalPts
      = (aggregatePodStats now podName pd).totalPts := by
  have hcount :
      (aggregatePodStats now podName pd).completed
        + (aggregatePodStats now podName pd).inProgress
        + (aggregatePodStats now podName pd).canceled
        ≤ (aggregatePodStats now podName pd).total := by
    rw [aggregatePodStats_total, aggregatePodStats_completed,
      aggregatePodStats_inProgress, aggregatePodStats_canceled]
    exact length_filter_three_le _ _ _ (currentIssues pd)
      (fun x _ hx => completedType_not_started hx)
      (fun x _ hx => completedType_not_cancelled hx)
      (fun x _ hx => startedType_not_cancelled hx)
  have hc_le : ((currentIssues pd).filter (fun i => isCompletedType i.stateType)).length
      ≤ (currentIssues pd).length := List.length_filter_le _ _
  have hpct0 : 0 ≤ (aggregatePodStats now podName pd).pctTickets := by
    rw [aggregatePodStats_pctTickets]
    split_ifs with ht
    · exact le_refl 0
    · exact round1_nonneg (by positivity)
  have hpct100 : (aggregatePodStats now podName pd).pctTickets ≤ 100 := by
    rw [aggregatePodStats_pctTickets]
    split_ifs with ht
    · norm_num
    · have htpos : 0 < ((currentIssues pd).length : ℚ) := by
        have : 0 < (currentIssues pd).length := Nat.pos_of_ne_zero ht
        exact_mod_cast this
      apply round1_le_hundred
      rw [div_le_iff₀ htpos]
      have : (((currentIssues pd).filter (fun i => isCompletedType i.stateType)).length : ℚ)
          ≤ ((currentIssues pd).length : ℚ) := by exact_mod_cast hc_le
      nlinarith
  have hzero : (aggregatePodStats now podName pd).total = 0 →
      (aggregatePodStats now podName pd).pctTickets = 0 := by
    intro ht
    rw [aggregatePodStats_total] at ht
    rw [aggregatePodStats_pctTickets, if_pos ht]
  have hinv : (aggregatePodStats now podName
        (mapCurrentIssues zeroMissingEstimate pd)).totalPts
      = (aggregatePodStats now podName pd).totalPts := by
    rw [aggregatePodStats_totalPts, aggregatePodStats_totalPts,
      currentIssues_mapCurrentIssues, totalPtsOf_zeroMissing]
  exact ⟨hcount, hpct0, hpct100, hzero, hinv⟩

def c6pod : PodData := { current := none, next := none, backlog := [] }

/-- C6 witness: a pod with no current cycle has zero issues, hence a zero
ticket percentage. -/
theorem c6_pod_aggregates_witness :
    (aggregatePodStats 0 "Wallet" c6pod).pctTickets = 0 :=
  (c6_pod_aggregates 0 "Wallet" c6pod).2.2.2.1 rfl

/-! ## Claim C1: Pareto cumulative percentages -/

theorem getLast?_cons_of_ne {α : Type} (a : α) (t : List α) (h : t ≠ []) :
    (a :: t).getLast? = t.getLast? := by
  cases t with
  | nil => exact absurd rfl h
  | cons b u => exact List.getLast?_cons_cons

theorem cumFrom_ne_nil (p : ℚ) (l : List ℚ) (acc : ℚ) :
    cumFrom acc (p :: l) ≠ [] := by
  unfold cumFrom
  exact List.cons_ne_nil _ _

theorem cumFrom_getLast? (l : List ℚ) (hne : l ≠ []) :
    ∀ acc : ℚ, (cumFrom acc l).getLast? = some (acc + l.sum) := by
  induction l with
  | nil => exact absurd rfl hne
  | cons p rest ih =>
      intro acc
      cases rest with
      | nil => simp [cumFrom, List.sum_cons]
      | cons q rs =>
          have step := ih (List.cons_ne_nil q rs) (acc + p)
          show ((acc + p) :: cumFrom (acc + p) (q :: rs)).getLast? = _
          rw [getLast?_cons_of_ne _ _ (cumFrom_ne_nil q rs (acc + p)), step]
          congr 1
          simp only [List.sum_cons]
          ring

theorem cumFrom_head_ge (p : ℚ) (l : List ℚ) (acc : ℚ) (hp : 0 ≤ p) :
    ∀ x ∈ (cumFrom acc (p :: l)).head?, acc ≤ x := by
  intro x hx
  unfold cumFrom at hx
  simp only [List.head?_cons, Option.mem_def, Option.some.injEq] at hx
  subst hx
  linarith

theorem cumFrom_chain (l : List ℚ) (h : ∀ x ∈ l, 0 ≤ x) :
    ∀ acc : ℚ, List.Chain' (· ≤ ·) (cumFrom acc l) := by
  induction l with
  | nil => intro acc; exact List.chain'_nil
  | cons p rest ih =>
      intro acc
      have hrest := ih (fun x hx => h x (List.mem_cons_of_mem p hx)) (acc + p)
      unfold cumFrom
      apply List.chain'_cons'.mpr
      refine ⟨?_, hrest⟩
      intro y hy
      rcases rest with _ | ⟨q, rs⟩
      · simp [cumFrom] at hy
      · have hq : 0 ≤ q := h q (by simp)
        have := cumFrom_head_ge q rs (acc + p) hq y hy
        linarith

theorem cumFrom_all_eq_of_zero (l : List ℚ) (h : ∀ x ∈ l, x = 0) :
    ∀ acc : ℚ, ∀ c ∈ cumFrom acc l, c = acc := by
  induction l with
  | nil => intro acc c hc; simp [cumFrom] at hc
  | cons p rest ih =>
      intro acc c hc
      have hp : p = 0 := h p (by simp)
      unfold cumFrom at hc
      rcases List.mem_cons.mp hc with heq | hmem
      · rw [heq, hp]; ring
      · have := ih (fun x hx => h x (List.mem_cons_of_mem p hx)) (acc + p) c hmem
        rw [this, hp]; ring

theorem sum_eq_zero_of_nonneg {l : List ℚ} (h : ∀ x ∈ l, 0 ≤ x) (hs : l.sum = 0) :
    ∀ x ∈ l, x = 0 := by
  induction l with
  | nil => intro x hx; simp at hx
  | cons p rest ih =>
      have hp : 0 ≤ p := h p (by simp)
      have hrest : 0 ≤ rest.sum :=
        List.sum_nonneg (fun x hx => h x (List.mem_cons_of_mem p hx))
      rw [List.sum_cons] at hs
      intro x hx
      rcases List.mem_cons.mp hx with heq | hmem
      · subst heq; linarith
      · exact ih (fun y hy => h y (List.mem_cons_of_mem p hy)) (by linarith) x hmem

theorem paretoCumulative_props (l : List ℚ) (h : ∀ x ∈ l, 0 ≤ x) :
    List.Chain' (· ≤ ·) (paretoCumulative l)
  ∧ (0 < l.sum → (paretoCumulative l).getLast? = some 100)
  ∧ (l.sum = 0 → ∀ y ∈ paretoCumulative l, y = 0) := by
  have hsum : 0 ≤ l.sum := List.sum_nonneg h
  refine ⟨?_, ?_, ?_⟩
  · unfold paretoCumulative
    have hden : (0 : ℚ) < (if l.sum = 0 then 1 else l.sum) := by
      split_ifs with hz
      · norm_num
      · exact lt_of_le_of_ne hsum (Ne.symm hz)
    have hchain := cumFrom_chain l h 0
    rw [List.chain'_map]
    refine List.Chain'.imp ?_ hchain
    intro a b hab
    apply round1_mono
    gcongr
  · intro hpos
    have hne : l ≠ [] := by
      intro h0
      rw [h0] at hpos
      simp at hpos
    have hz : l.sum ≠ 0 := ne_of_gt hpos
    unfold paretoCumulative
    rw [List.getLast?_map, cumFrom_getLast? l hne 0]
    simp only [Option.map_some', Option.some.injEq, if_neg hz, zero_add]
    rw [mul_div_assoc, div_self hz]
    rw [mul_one]
    exact round1_hundred
  · intro hz y hy
    unfold paretoCumulative at hy
    rcases List.mem_map.mp hy with ⟨c, hc, hcy⟩
    have hall : ∀ x ∈ l, x = 0 := sum_eq_zero_of_nonneg h hz
    have hc0 : c = 0 := by
      have := cumFrom_all_eq_of_zero l hall 0 c hc
      simpa using this
    rw [← hcy, hc0]
    simp [round1_zero]

theorem generateReport_paretoTop (now : ℤ) (linear : LinearData) (sheets : SheetsOutput) :
    (generateReport now linear sheets).paretoTop
      = (sortParetoDesc (paretoEntriesOf (nextStatsOf linear))).take 25 := rfl

theorem generateReport_paretoPct (now : ℤ) (linear : LinearData) (sheets : SheetsOutput) :
    (generateReport now linear sheets).paretoCumulativePct
      = paretoCumulative
          (((sortParetoDesc (paretoEntriesOf (nextStatsOf linear))).take 25).map
            (fun p => p.2)) := rfl

theorem pareto_pts_nonneg (linear : LinearData)
    (hnn : ∀ p ∈ linear.pods, ∀ nd, p.2.next = some nd → ∀ i ∈ nd.issues, 0 ≤ estPts i) :
    ∀ x ∈ ((sortParetoDesc (paretoEntriesOf (nextStatsOf linear))).take 25).map
        (fun p => p.2), 0 ≤ x := by
  intro x hx
  rcases List.mem_map.mp hx with ⟨e, he, hex⟩
  have he2 : e ∈ sortParetoDesc (paretoEntriesOf (nextStatsOf linear)) :=
    List.mem_of_mem_take he
  have he3 : e ∈ paretoEntriesOf (nextStatsOf linear) := by
    unfold sortParetoDesc at he2
    exact (insSort_perm _ (paretoEntriesOf (nextStatsOf linear))).mem_iff.mp he2
  unfold paretoEntriesOf at he3
  rcases List.mem_flatMap.mp he3 with ⟨ns, hns, hens⟩
  rcases List.mem_map.mp hens with ⟨i, hi, hie⟩
  unfold nextStatsOf at hns
  obtain ⟨pr, hpr, hagg⟩ := List.mem_filterMap.mp hns
  have hpods : pr ∈ linear.pods := List.mem_of_mem_filter hpr
  unfold aggregateNextSprint at hagg
  rcases hnx : pr.2.next with _ | nd
  · rw [hnx] at hagg
    cases hagg
  · rw [hnx] at hagg
    simp only [Option.some.injEq] at hagg
    have hiss : ns.issues = sortIssuesDesc nd.issues := by rw [← hagg]
    rw [hiss] at hi
    unfold sortIssuesDesc at hi
    have hi2 : i ∈ nd.issues := (insSort_perm _ nd.issues).mem_iff.mp hi
    have hest := hnn pr hpods nd hnx i hi2
    rw [← hex, ← hie]
    exact hest

/-! ## Claim C1: statement, counterexample, amended theorem -/

def cexSheets0 : SheetsOutput :=
  { initiatives := [], byStage := [], totalCount := 0, readyForEng := [],
    waitingInfo := [], accessError := true }

def cexNextCycle : SprintCycle :=
  { cid := 9, cname := none, number := 9, startsAt := 0, endsAt := 86400,
    scopeHistory := [], completedScopeHistory := [] }

def cexZeroIssue : Issue :=
  { iid := 1, identifier := "Z-1", title := "zero", stateType := "unstarted",
    assigneeName := none, estimate := some 0, updatedAt := none, labels := [] }

def cexLinearZeroPts : LinearData :=
  { pods := [("Wallet",
      { current := none,
        next := some { cycle := cexNextCycle, issues := [cexZeroIssue] },
        backlog := [] })] }

/-- C1 counterexample: with one next-sprint issue of zero estimate, the
truncated top-25 Pareto set is non-empty, yet the final cumulative
percentage is 0, not 100 (the script replaces the zero denominator by 1). -/
theorem c1_pareto_cumulative_counterexample :
    (generateReport 0 cexLinearZeroPts cexSheets0).paretoTop ≠ []
  ∧ ((generateReport 0 cexLinearZeroPts cexSheets0).paretoCumulativePct).getLast?
      = some 0
  ∧ (0 : ℚ) ≠ 100 := by
  have htop : (generateReport 0 cexLinearZeroPts cexSheets0).paretoTop
      = [("Z-1", (0 : ℚ))] := rfl
  refine ⟨?_, ?_, by norm_num⟩
  · rw [htop]
    exact List.cons_ne_nil _ _
  · rw [generateReport_paretoPct]
    have hmap : ((sortParetoDesc (paretoEntriesOf (nextStatsOf cexLinearZeroPts))).take
        25).map (fun p => p.2) = [(0 : ℚ)] := rfl
    rw [hmap]
    unfold paretoCumulative
    simp [cumFrom, round1_zero]

/-- C1 (amended): with non-negative estimates, the cumulative-percentage
series over the truncated top-25 Pareto set is non-decreasing; its final
value is 100 when the truncated set has positive total points; and when the
truncated total is 0 every entry of the series is 0. -/
theorem c1_pareto_cumulative (now : ℤ) (linear : LinearData) (sheets : SheetsOutput)
    (hnn : ∀ p ∈ linear.pods, ∀ nd, p.2.next = some nd → ∀ i ∈ nd.issues, 0 ≤ estPts i) :
    List.Chain' (· ≤ ·) ((generateReport now linear sheets).paretoCumulativePct)
  ∧ (0 < ((generateReport now linear sheets).paretoTop.map (fun p => p.2)).sum →
      ((generateReport now linear sheets).paretoCumulativePct).getLast? = some 100)
  ∧ (((generateReport now linear sheets).paretoTop.map (fun p => p.2)).sum = 0 →
      ∀ y ∈ (generateReport now linear sheets).paretoCumulativePct, y = 0) := by
  have hnonneg := pareto_pts_nonneg linear hnn
  have hprops := paretoCumulative_props _ hnonneg
  rw [generateReport_paretoPct, generateReport_paretoTop]
  exact hprops

def c1posIssue : Issue :=
  { iid := 2, identifier := "P-1", title := "p", stateType := "unstarted",
    assigneeName := none, estimate := some 3, updatedAt := none, labels := [] }

def c1posLinear : LinearData :=
  { pods := [("AP",
      { current := none,
        next := some { cycle := cexNextCycle, issues := [c1posIssue] },
        backlog := [] })] }

/-- C1 witness: with one next-sprint issue worth three points, the final
cumulative percentage is exactly 100. -/
theorem c1_pareto_cumulative_witness :
    ((generateReport 0 c1posLinear cexSheets0).paretoCumulativePct).getLast?
      = some 100 := by
  have hnn : ∀ p ∈ c1posLinear.pods, ∀ nd, p.2.next = some nd →
      ∀ i ∈ nd.issues, 0 ≤ estPts i := by
    intro p hp nd hnd i hi
    simp only [c1posLinear, List.mem_singleton] at hp
    subst hp
    have hnd2 : ({ cycle := cexNextCycle, issues := [c1posIssue] } : NextData) = nd :=
      Option.some.inj hnd
    subst hnd2
    simp only [List.mem_singleton] at hi
    subst hi
    have he : estPts c1posIssue = 3 := rfl
    rw [he]
    norm_num
  have htop : (generateReport 0 c1posLinear cexSheets0).paretoTop
      = [("P-1", (3 : ℚ))] := rfl
  apply (c1_pareto_cumulative 0 c1posLinear cexSheets0 hnn).2.1
  rw [htop]
  norm_num

/-! ## Claims C4 and C7: burndown -/

theorem rhe_eq_of_fract_lt {x : ℚ} {f : ℤ} (hf : ⌊x⌋ = f) (h : x - f < 1/2) :
    rhe x = f := by
  have hfr : Int.fract x = x - (f : ℚ) := by simp [Int.fract, hf]
  unfold rhe
  rw [hfr, hf, if_pos h]

theorem rhe_eq_of_fract_gt {x : ℚ} {f : ℤ} (hf : ⌊x⌋ = f) (h : 1/2 < x - f) :
    rhe x = f + 1 := by
  have hfr : Int.fract x = x - (f : ℚ) := by simp [Int.fract, hf]
  unfold rhe
  rw [hfr, hf, if_neg (by linarith), if_pos h]

theorem burndownAux_get? (I : ℚ) (D : ℤ) :
    ∀ (ss ds : List ℚ) (i0 k : ℕ) (s d : ℚ),
      ss.get? k = some s → ds.get? k = some d →
      (burndownAux I D i0 ss ds).get? k
        = some { dayIndex := i0 + k, remaining := max 0 (s - d),
                 ideal := round1 (idealAt I D (i0 + k)) } := by
  intro ss
  induction ss with
  | nil => intro ds i0 k s d hs _; simp at hs
  | cons s1 stl ih =>
      intro ds i0 k s d hs hd
      cases ds with
      | nil => simp at hd
      | cons d1 dtl =>
          cases k with
          | zero =>
              have hs1 : s1 = s := by simpa using hs
              have hd1 : d1 = d := by simpa using hd
              subst hs1
              subst hd1
              rfl
          | succ k1 =>
              have step := ih dtl (i0 + 1) k1 s d (by simpa using hs) (by simpa using hd)
              have hidx : i0 + 1 + k1 = i0 + (k1 + 1) := by omega
              show (burndownAux I D (i0 + 1) stl dtl).get? k1 = _
              rw [step, hidx]

theorem burndownAux_get?_shape (I : ℚ) (D : ℤ) :
    ∀ (ss ds : List ℚ) (i0 k : ℕ) (e : BurndownEntry),
      (burndownAux I D i0 ss ds).get? k = some e →
      e.ideal = round1 (idealAt I D (i0 + k)) ∧ 0 ≤ e.remaining := by
  intro ss
  induction ss with
  | nil => intro ds i0 k e he; simp [burndownAux] at he
  | cons s1 stl ih =>
      intro ds i0 k e he
      cases ds with
      | nil => simp [burndownAux] at he
      | cons d1 dtl =>
          cases k with
          | zero =>
              have he1 : BurndownEntry.mk i0 (max 0 (s1 - d1))
                  (round1 (idealAt I D i0)) = e := by
                simpa [burndownAux] using he
              subst he1
              exact ⟨rfl, le_max_left 0 _⟩
          | succ k1 =>
              have step := ih dtl (i0 + 1) k1 e (by simpa [burndownAux] using he)
              have hidx : i0 + 1 + k1 = i0 + (k1 + 1) := by omega
              rw [hidx] at step
              exact step

theorem idealAt_zero (I : ℚ) (D : ℤ) (hI : 0 ≤ I) : idealAt I D 0 = I := by
  unfold idealAt
  simp
  exact hI

theorem idealAt_anti (I : ℚ) (D : ℤ) (hI : 0 ≤ I) (hD : 1 ≤ D) {i j : ℕ}
    (hij : i ≤ j) : idealAt I D j ≤ idealAt I D i := by
  unfold idealAt
  have hDq : (0 : ℚ) < (D : ℚ) := by exact_mod_cast lt_of_lt_of_le zero_lt_one hD
  have hquot : 0 ≤ I / (D : ℚ) := div_nonneg hI hDq.le
  have hcast : (i : ℚ) ≤ (j : ℚ) := by exact_mod_cast hij
  have hinner : I - I / (D : ℚ) * (j : ℚ) ≤ I - I / (D : ℚ) * (i : ℚ) := by nlinarith
  exact max_le_max le_rfl hinner

def cexCycle4 : SprintCycle :=
  { cid := 4, cname := none, number := 4, startsAt := 0, endsAt := 259200,
    scopeHistory := [10, 10], completedScopeHistory := [0, 0] }

theorem round1_twenty_thirds : round1 (20/3) = 67/10 := by
  unfold round1
  have h2 : (10 : ℚ) * (20/3) = 200/3 := by norm_num
  rw [h2]
  have hf : ⌊(200 : ℚ)/3⌋ = 66 := by
    rw [Int.floor_eq_iff]
    constructor <;> push_cast <;> norm_num
  rw [rhe_eq_of_fract_gt hf (by push_cast; norm_num)]
  push_cast
  norm_num

theorem idealAt_cex4 : idealAt 10 3 1 = 20/3 := by
  unfold idealAt
  push_cast
  rw [max_eq_right (by norm_num : (0 : ℚ) ≤ 10 - 10/3 * 1)]
  norm_num

/-- C4 counterexample: for a cycle with initial scope 10 over a three-day
sprint, the generated ideal value at day 1 is 6.7 (rounded to one decimal),
not the exact claimed value 20/3. -/
theorem c4_burndown_counterexample :
    (calculateBurndown cexCycle4).get? 1
      = some { dayIndex := 1, remaining := 10, ideal := 67/10 }
  ∧ (67/10 : ℚ) ≠ idealAt 10 3 1 := by
  constructor
  · have hb : calculateBurndown cexCycle4
        = burndownAux 10 3 0 [10, 10] [0, 0] := rfl
    rw [hb, burndownAux_get? 10 3 [10, 10] [0, 0] 0 1 10 0 rfl rfl]
    simp only [BurndownEntry.mk.injEq, Option.some.injEq]
    refine ⟨by trivial, by norm_num, ?_⟩
    show round1 (idealAt 10 3 (0 + 1)) = 67/10
    rw [Nat.zero_add, idealAt_cex4, round1_twenty_thirds]
  · rw [idealAt_cex4]
    norm_num

/-- C4 (amended): for every cycle, an empty scope history yields an empty
burndown, and when both histories have an entry at index i the burndown
entry at index i has remaining equal to max of 0 and scope minus completed,
and ideal equal to the claimed linear-decay formula rounded to one decimal,
with the day count max of the floored start-to-end days and 1. -/
theorem c4_burndown (c : SprintCycle)
    (hlen : c.scopeHistory.length = c.completedScopeHistory.length) :
    (c.scopeHistory = [] → calculateBurndown c = [])
  ∧ ∀ (i : ℕ) (s0 si di : ℚ),
      c.scopeHistory.get? 0 = some s0 →
      c.scopeHistory.get? i = some si →
      c.completedScopeHistory.get? i = some di →
      (calculateBurndown c).get? i
        = some { dayIndex := i,
                 remaining := max 0 (si - di),
                 ideal := round1 (idealAt s0
                   (max (daysTd (c.endsAt - c.startsAt)) 1) i) } := by
  constructor
  · intro h
    simp [calculateBurndown, h]
  · intro i s0 si di h0 hi hdi
    rcases hsc : c.scopeHistory with _ | ⟨sh, rest⟩
    · rw [hsc] at h0
      simp at h0
    · have hs0 : sh = s0 := by
        rw [hsc] at h0
        simpa using h0
      subst hs0
      have hcalc : calculateBurndown c
          = burndownAux sh (max (daysTd (c.endsAt - c.startsAt)) 1) 0
              c.scopeHistory c.completedScopeHistory := by
        simp [calculateBurndown, hsc]
      rw [hcalc]
      have := burndownAux_get? sh (max (daysTd (c.endsAt - c.startsAt)) 1)
        c.scopeHistory c.completedScopeHistory 0 i si di hi hdi
      rw [this]
      simp

/-- C4 witness: the pair of histories of the concrete cycle produces the
entry given by the amended formula at day 0. -/
theorem c4_burndown_witness :
    (calculateBurndown cexCycle4).get? 0
      = some { dayIndex := 0, remaining := max 0 ((10 : ℚ) - 0),
               ideal := round1 (idealAt 10
                 (max (daysTd (cexCycle4.endsAt - cexCycle4.startsAt)) 1) 0) } :=
  (c4_burndown cexCycle4 rfl).2 0 10 10 0 rfl rfl rfl

theorem burndownAux_remaining_nonneg (I : ℚ) (D : ℤ) :
    ∀ (ss ds : List ℚ) (i0 : ℕ), ∀ e ∈ burndownAux I D i0 ss ds, 0 ≤ e.remaining := by
  intro ss
  induction ss with
  | nil => intro ds i0 e he; simp [burndownAux] at he
  | cons s1 stl ih =>
      intro ds i0 e he
      cases ds with
      | nil => simp [burndownAux] at he
      | cons d1 dtl =>
          unfold burndownAux at he
          rcases List.mem_cons.mp he with heq | hmem
          · subst heq
            exact le_max_left 0 _
          · exact ih dtl (i0 + 1) e hmem

def cexCycle7 : SprintCycle :=
  { cid := 7, cname := none, number := 7, startsAt := 0, endsAt := 86400,
    scopeHistory := [13/100], completedScopeHistory := [0] }

theorem round1_thirteen_hundredths : round1 (13/100) = 1/10 := by
  unfold round1
  have h2 : (10 : ℚ) * (13/100) = 13/10 := by norm_num
  rw [h2]
  have hf : ⌊(13 : ℚ)/10⌋ = 1 := by
    rw [Int.floor_eq_iff]
    constructor <;> push_cast <;> norm_num
  rw [rhe_eq_of_fract_lt hf (by push_cast; norm_num)]
  push_cast
  norm_num

/-- C7 counterexample: for a cycle whose initial scope is 0.13, the first
ideal value is 0.1 (the script rounds to one decimal), not the initial
scope itself. -/
theorem c7_burndown_counterexample :
    (calculateBurndown cexCycle7).head?
      = some { dayIndex := 0, remaining := max 0 ((13 : ℚ)/100 - 0), ideal := 1/10 }
  ∧ ((1 : ℚ)/10) ≠ 13/100 := by
  constructor
  · have hb : calculateBurndown cexCycle7
        = burndownAux (13/100) 1 0 [13/100] [0] := rfl
    rw [hb]
    show some (BurndownEntry.mk 0 (max 0 ((13 : ℚ)/100 - 0))
        (round1 (idealAt (13/100) 1 0))) = _
    simp only [BurndownEntry.mk.injEq, Option.some.injEq]
    refine ⟨by trivial, by trivial, ?_⟩
    rw [idealAt_zero (13/100) 1 (by norm_num), round1_thirteen_hundredths]
  · norm_num

/-- C7 (amended): for every cycle with a scope history starting at a
non-negative value, the first burndown entry's ideal equals that initial
scope rounded to one decimal (hence equals it exactly whenever the rounding
fixes it), the ideal values are non-increasing along the series, and every
entry's remaining value is non-negative. -/
theorem c7_burndown_shape (c : SprintCycle) (s0 : ℚ)
    (h0 : c.scopeHistory.get? 0 = some s0) (hs : 0 ≤ s0) :
    (∀ e : BurndownEntry, (calculateBurndown c).head? = some e →
        e.ideal = round1 s0)
  ∧ (round1 s0 = s0 → ∀ e : BurndownEntry,
        (calculateBurndown c).head? = some e → e.ideal = s0)
  ∧ (∀ (i j : ℕ) (ei ej : BurndownEntry), i ≤ j →
      (calculateBurndown c).get? i = some ei →
      (calculateBurndown c).get? j = some ej → ej.ideal ≤ ei.ideal)
  ∧ (∀ e ∈ calculateBurndown c, 0 ≤ e.remaining) := by
  rcases hsc : c.scopeHistory with _ | ⟨sh, rest⟩
  · rw [hsc] at h0
    simp at h0
  · have hs0 : sh = s0 := by
      rw [hsc] at h0
      simpa using h0
    subst hs0
    have hcalc : calculateBurndown c
        = burndownAux sh (max (daysTd (c.endsAt - c.startsAt)) 1) 0
            c.scopeHistory c.completedScopeHistory := by
      simp [calculateBurndown, hsc]
    have hD : (1 : ℤ) ≤ max (daysTd (c.endsAt - c.startsAt)) 1 := le_max_right _ _
    have hhead : ∀ e : BurndownEntry, (calculateBurndown c).head? = some e →
        e.ideal = round1 sh := by
      intro e he
      rw [hcalc, hsc] at he
      cases hdc : c.completedScopeHistory with
      | nil => rw [hdc] at he; simp [burndownAux] at he
      | cons d1 dtl =>
          rw [hdc] at he
          have he1 : BurndownEntry.mk 0 (max 0 (sh - d1))
              (round1 (idealAt sh (max (daysTd (c.endsAt - c.startsAt)) 1) 0)) = e := by
            simpa [burndownAux] using he
          rw [← he1]
          show round1 (idealAt sh (max (daysTd (c.endsAt - c.startsAt)) 1) 0) = round1 sh
          rw [idealAt_zero _ _ hs]
    refine ⟨hhead, ?_, ?_, ?_⟩
    · intro hfix e he
      rw [hhead e he, hfix]
    · intro i j ei ej hij hi hj
      rw [hcalc] at hi hj
      have hei := (burndownAux_get?_shape _ _ _ _ 0 i ei hi).1
      have hej := (burndownAux_get?_shape _ _ _ _ 0 j ej hj).1
      rw [hei, hej]
      simp only [Nat.zero_add]
      exact round1_mono (idealAt_anti _ _ hs hD hij)
    · intro e he
      rw [hcalc] at he
      exact burndownAux_remaining_nonneg _ _ _ _ _ e he

/-- C7 witness: the concrete cycle with initial scope 0.13 satisfies the
amended shape at its head entry. -/
theorem c7_burndown_shape_witness :
    (BurndownEntry.mk 0 (max 0 ((13 : ℚ)/100 - 0))
        (round1 (idealAt (13/100) 1 0))).ideal = round1 (13/100) :=
  (c7_burndown_shape cexCycle7 (13/100) rfl (by norm_num)).1 _ rfl

/-! ## Claims C2 and C9: cycle resolution and the no-cycle pod -/

theorem walkForMatch_eq_none_iff (ts te : ℤ) (l : List SprintCycle) :
    walkForMatch ts te l = none ↔ ∀ c ∈ l, cycleMatchesWindow ts te c = false := by
  induction l with
  | nil => simp [walkForMatch]
  | cons a rest ih =>
      unfold walkForMatch
      by_cases h : cycleMatchesWindow ts te a
      · simp [h]
      · simp only [Bool.not_eq_true] at h
        simp [h, ih]

theorem walkForMatch_first (ts te : ℤ) :
    ∀ (l : List SprintCycle) (i : ℕ) (c : SprintCycle),
      l.get? i = some c → cycleMatchesWindow ts te c = true →
      (∀ (j : ℕ) (cj : SprintCycle), j < i → l.get? j = some cj →
        cycleMatchesWindow ts te cj = false) →
      walkForMatch ts te l = some (c, l.get? (i + 1)) := by
  intro l
  induction l with
  | nil => intro i c hc _ _; simp at hc
  | cons a rest ih =>
      intro i c hc hm hbefore
      cases i with
      | zero =>
          have hac : a = c := by simpa using hc
          subst hac
          unfold walkForMatch
          rw [if_pos hm]
          cases rest with
          | nil => rfl
          | cons b tl => rfl
      | succ i1 =>
          have h0 : cycleMatchesWindow ts te a = false :=
            hbefore 0 a (Nat.succ_pos i1) rfl
          unfold walkForMatch
          rw [if_neg (by simp [h0])]
          have hrec := ih i1 c (by simpa using hc) hm
            (fun j cj hj hcj => hbefore (j + 1) cj (by omega) (by simpa using hcj))
          exact hrec

theorem pairwise_getLast {α : Type} {R : α → α → Prop} :
    ∀ (l : List α), List.Pairwise R l → ∀ a, l.getLast? = some a →
      ∀ b ∈ l, b = a ∨ R b a := by
  intro l hp a hl b hb
  rcases List.getLast?_eq_some_iff.mp hl with ⟨ys, rfl⟩
  rcases List.mem_append.mp hb with hys | hbl
  · right
    exact (List.pairwise_append.mp hp).2.2 b hys a (by simp)
  · left
    simpa using hbl

theorem sortCycles_sorted (cycles : List SprintCycle) :
    List.Pairwise (fun a b : SprintCycle => a.startsAt ≤ b.startsAt)
      (sortCycles cycles) := by
  have h := @insSort_pairwise SprintCycle
    (fun a b : SprintCycle => decide (a.startsAt ≤ b.startsAt))
    (fun a b => by
      rcases le_total a.startsAt b.startsAt with h | h
      · exact Or.inl (decide_eq_true h)
      · exact Or.inr (decide_eq_true h))
    (fun a b c h1 h2 =>
      decide_eq_true (le_trans (of_decide_eq_true h1) (of_decide_eq_true h2)))
    cycles
  exact h.imp (fun hab => of_decide_eq_true hab)

/-- C2: cycle resolution walks the start-ascending sorted cycle list and
returns, as current, the first cycle matching the target window within the
two-day tolerance with the next cycle in sort order as next; when nothing
matches it picks among the cycles containing the current instant the one
with the latest start, with its successor in sort order as next; and when
no cycle contains the instant it returns none twice. -/
theorem c2_cycle_resolution (cycles : List SprintCycle) (ts te now : ℤ) :
    List.Pairwise (fun a b : SprintCycle => a.startsAt ≤ b.startsAt)
      (sortCycles cycles)
  ∧ (∀ (i : ℕ) (c : SprintCycle),
      (sortCycles cycles).get? i = some c →
      cycleMatchesWindow ts te c = true →
      (∀ (j : ℕ) (cj : SprintCycle), j < i → (sortCycles cycles).get? j = some cj →
        cycleMatchesWindow ts te cj = false) →
      findSprintCycles cycles ts te now
        = (some c, (sortCycles cycles).get? (i + 1)))
  ∧ ((∀ c ∈ sortCycles cycles, cycleMatchesWindow ts te c = false) →
      ∀ cur : SprintCycle,
        ((sortCycles cycles).filter (cycleActiveAt now)).getLast? = some cur →
        (∃ j : ℕ, (sortCycles cycles).get? j = some cur ∧
          findSprintCycles cycles ts te now
            = (some cur, (sortCycles cycles).get? (j + 1)))
        ∧ ∀ c ∈ (sortCycles cycles).filter (cycleActiveAt now),
            c.startsAt ≤ cur.startsAt)
  ∧ ((∀ c ∈ sortCycles cycles, cycleMatchesWindow ts te c = false) →
      (sortCycles cycles).filter (cycleActiveAt now) = [] →
      findSprintCycles cycles ts te now = (none, none)) := by
  refine ⟨sortCycles_sorted cycles, ?_, ?_, ?_⟩
  · intro i c hc hm hbefore
    have hwalk := walkForMatch_first ts te (sortCycles cycles) i c hc hm hbefore
    simp [findSprintCycles, hwalk]
  · intro hno cur hlast
    have hwalk : walkForMatch ts te (sortCycles cycles) = none :=
      (walkForMatch_eq_none_iff _ _ _).mpr hno
    have hmemf : cur ∈ (sortCycles cycles).filter (cycleActiveAt now) := by
      rcases List.getLast?_eq_some_iff.mp hlast with ⟨ys, hys⟩
      rw [hys]
      simp
    have hmem : cur ∈ sortCycles cycles := List.mem_of_mem_filter hmemf
    constructor
    · refine ⟨(sortCycles cycles).indexOf cur, ?_, ?_⟩
      · have hlt : (sortCycles cycles).indexOf cur < (sortCycles cycles).length :=
          List.indexOf_lt_length.mpr hmem
        rw [List.get?_eq_getElem?, List.getElem?_eq_getElem hlt,
          List.getElem_indexOf hlt]
      · simp [findSprintCycles, hwalk, hlast]
    · intro c hc
      have hpair : List.Pairwise (fun a b : SprintCycle => a.startsAt ≤ b.startsAt)
          ((sortCycles cycles).filter (cycleActiveAt now)) :=
        (sortCycles_sorted cycles).sublist (List.filter_sublist _)
      rcases pairwise_getLast _ hpair cur hlast c hc with heq | hle
      · rw [heq]
      · exact hle
  · intro hno hempty
    have hwalk : walkForMatch ts te (sortCycles cycles) = none :=
      (walkForMatch_eq_none_iff _ _ _).mpr hno
    simp [findSprintCycles, hwalk, hempty]

def c2cyc : SprintCycle :=
  { cid := 1, cname := none, number := 1, startsAt := 0, endsAt := 86400,
    scopeHistory := [], completedScopeHistory := [] }

/-- C2 witness: a single cycle exactly matching the target window is
returned as current with no next cycle. -/
theorem c2_cycle_resolution_witness :
    findSprintCycles [c2cyc] 0 86400 0 = (some c2cyc, none) := by
  have h := (c2_cycle_resolution [c2cyc] 0 86400 0).2.1 0 c2cyc rfl (by decide)
    (fun j cj hj _ => absurd hj (Nat.not_lt_zero j))
  rw [h]
  rfl

def cexLinear9 : LinearData :=
  { pods := [("Wallet", { current := none, next := none, backlog := [] })] }

/-- C9 counterexample: a pod with no current cycle yields no pod card at
all — the renderer omits the pod instead of rendering a zero-filled card. -/
theorem c9_no_cycle_counterexample :
    (generateReport 0 cexLinear9 cexSheets0).section1.podCards = []
  ∧ cexLinear9.pods ≠ [] := by
  exact ⟨rfl, by simp [cexLinear9]⟩

/-- C9 (amended): when no cycle matches the window and no cycle contains
the current instant, resolution returns none twice; and the rendered pod
cards are exactly the pods having a current cycle record, so a pod without
one is omitted from the per-pod section rather than rendered zero-filled. -/
theorem c9_no_cycle (cycles : List SprintCycle) (ts te now : ℤ)
    (hm : ∀ c ∈ sortCycles cycles, cycleMatchesWindow ts te c = false)
    (ha : ∀ c ∈ sortCycles cycles, cycleActiveAt now c = false) :
    findSprintCycles cycles ts te now = (none, none)
  ∧ ∀ (rnow : ℤ) (linear : LinearData) (sheets : SheetsOutput),
      (generateReport rnow linear sheets).section1.podCards.map (fun s => s.pod)
        = (linear.pods.filter (fun p => p.2.current.isSome)).map (fun p => p.1) := by
  constructor
  · have hwalk : walkForMatch ts te (sortCycles cycles) = none :=
      (walkForMatch_eq_none_iff _ _ _).mpr hm
    have hfil : (sortCycles cycles).filter (cycleActiveAt now) = [] := by
      apply List.filter_eq_nil_iff.mpr
      intro c hc
      simp [ha c hc]
    simp [findSprintCycles, hwalk, hfil]
  · intro rnow linear sheets
    have hcards : (generateReport rnow linear sheets).section1.podCards
        = currentStatsOf rnow linear := rfl
    rw [hcards]
    unfold currentStatsOf
    rw [List.map_map]
    rfl

def c9farCycle : SprintCycle :=
  { cid := 3, cname := none, number := 3, startsAt := 864000, endsAt := 950400,
    scopeHistory := [], completedScopeHistory := [] }

/-- C9 witness: a team whose only cycle is far from the window and does not
contain the instant resolves to none twice. -/
theorem c9_no_cycle_witness :
    findSprintCycles [c9farCycle] 0 86400 0 = (none, none) :=
  (c9_no_cycle [c9farCycle] 0 86400 0 (by decide) (by decide)).1
